import Mathlib

/-! Verification development for the Variational Factorization Machine (VFM)
of `src/vfm.py`. The numeric pipeline of the source is embedded shallowly:
tensors indexed by `Fin` become functions, the backend's reparameterized
Gaussian sampling and KL primitives become explicit formulas, and the two
transcendental scalar functions the backend supplies (`exp`, `sqrt`) are
passed in as an explicit operation pack so that the pipeline itself stays
computable; theorems about collapse-to-the-mean instantiate it with
`Real.exp` / `Real.sqrt`.  The randomness consumed by `F.gaussian` (one
standard-normal draw per sampled element) is passed in as explicit noise
arrays, exactly as the reparameterization trick prescribes.
-/

namespace VFMSpec

open Filter Topology

/-- The scalar functions supplied by the numeric backend (chainer):
`exp` backs `F.gaussian` and `F.gaussian_kl_divergence`, `sqrt` backs
`F.sqrt`. -/
structure ScalarOps (α : Type) where
  exp : α → α
  sqrt : α → α

/-- A rank-3 tensor of shape `(bs, nf, nf)`, the shape of the diagonal
exclusion mask built by `VFM.mask` (`src/vfm.py` lines 51-57). -/
structure Tensor3 (α : Type) where
  bs : ℕ
  nf : ℕ
  entry : Fin bs → Fin nf → Fin nf → α

section Model

variable {α : Type} [Field α]

/-- Source `src/vfm.py` lines 53-55: `ones((nf, nf)) - eye(nf)` tiled `bs` times
along a new leading axis. -/
def buildMask (bs nf : ℕ) : Tensor3 α :=
  ⟨bs, nf, fun _ i j => 1 - (if (i : ℕ) = (j : ℕ) then 1 else 0)⟩

/-- Source `src/vfm.py` lines 51-57 (`VFM.mask`): the cached mask is rebuilt iff
the cache is empty or the cached leading dimension differs from `bs`;
otherwise the cached tensor is returned unchanged.  Returns the tensor
handed to the caller together with the cache cell after the call. -/
def maskCall (c : Option (Tensor3 α)) (bs nf : ℕ) :
    Tensor3 α × Option (Tensor3 α) :=
  match c with
  | none => let m := buildMask bs nf; (m, some m)
  | some m =>
    if m.bs ≠ bs then let m2 := buildMask bs nf; (m2, some m2)
    else (m, some m)

/-- The VFM model state (`src/vfm.py` lines 10-57): the ten learnable
parameter tensors, the three regularization weights, the interaction
flag, the dataset size used for regularization scaling, and the cached
diagonal-exclusion mask `_mask`. -/
structure VFM (α : Type) (n_features n_dim : ℕ) where
  bias_mu : α
  bias_lv : α
  slope_mu : Fin n_features → α
  slope_lv : Fin n_features → α
  prior_slope_mu : α
  prior_slope_lv : α
  latent_mu : Fin n_features → Fin n_dim → α
  latent_lv : Fin n_features → Fin n_dim → α
  prior_latent_mu : Fin n_dim → α
  prior_latent_lv : Fin n_dim → α
  lambda0 : α
  lambda1 : α
  lambda2 : α
  intx_term : Bool
  total_nobs : α
  _mask : Option (Tensor3 α)

variable {n_features n_dim : ℕ}

/-- Chainer `F.gaussian(mu, lv)`: reparameterized sampling,
`mu + exp(lv / 2) * noise` with `noise` a standard-normal draw. -/
def gaussianSample (ops : ScalarOps α) (mu lv noise : α) : α :=
  mu + ops.exp (lv / 2) * noise

/-- One summand of chainer's `F.gaussian_kl_divergence(mean, ln_var)`
(KL of `N(mean, exp ln_var)` against the standard normal):
`(mean^2 + exp ln_var - ln_var - 1) / 2`; the group value is the sum of
this over all elements of the parameter tensor. -/
def gaussianKLTerm (ops : ScalarOps α) (mean lv : α) : α :=
  (mean * mean + ops.exp lv - lv - 1) / 2

/-- Source `src/vfm.py` line 143: `reg0 = gaussian_kl_divergence(bias_mu.b, bias_lv.b)`. -/
def reg0 (ops : ScalarOps α) (m : VFM α n_features n_dim) : α :=
  gaussianKLTerm ops m.bias_mu m.bias_lv

/-- Source `src/vfm.py` line 144: `reg1 = gaussian_kl_divergence(slope_mu.W, slope_lv.W)`. -/
def reg1 (ops : ScalarOps α) (m : VFM α n_features n_dim) : α :=
  ∑ f, gaussianKLTerm ops (m.slope_mu f) (m.slope_lv f)

/-- Source `src/vfm.py` line 145: `reg2 = gaussian_kl_divergence(latent_mu.W, latent_lv.W)`. -/
def reg2 (ops : ScalarOps α) (m : VFM α n_features n_dim) : α :=
  ∑ f, ∑ d, gaussianKLTerm ops (m.latent_mu f d) (m.latent_lv f d)

/-- Source `src/vfm.py` lines 146-147: `reg3 = gaussian_kl_divergence(prior_latent_mu.b, prior_latent_lv.b)`. -/
def reg3 (ops : ScalarOps α) (m : VFM α n_features n_dim) : α :=
  ∑ d, gaussianKLTerm ops (m.prior_latent_mu d) (m.prior_latent_lv d)

/-- Source `src/vfm.py` lines 148-149: `reg4 = gaussian_kl_divergence(prior_slope_mu.b, prior_slope_lv.b)`. -/
def reg4 (ops : ScalarOps α) (m : VFM α n_features n_dim) : α :=
  gaussianKLTerm ops m.prior_slope_mu m.prior_slope_lv

/-- Source `src/vfm.py` lines 150-151:
`regt = reg0*lambda0 + reg1*lambda1 + reg2*lambda2; regt += reg3*lambda0 + reg4*lambda0`. -/
def regtOf (ops : ScalarOps α) (m : VFM α n_features n_dim) : α :=
  reg0 ops m * m.lambda0 + reg1 ops m * m.lambda1 + reg2 ops m * m.lambda2
    + (reg3 ops m * m.lambda0 + reg4 ops m * m.lambda0)

variable {bs nf : ℕ}

/-- Source `src/vfm.py` lines 89-93: the per-row bias sample.  The broadcast
log-variance gets `is_test * lv_floor` added per row before sampling. -/
def biasSample (ops : ScalarOps α) (m : VFM α n_features n_dim)
    (is_test : Fin bs → α) (lv_floor : α) (nb : Fin bs → α) :
    Fin bs → α :=
  fun b => gaussianSample ops m.bias_mu (m.bias_lv + is_test b * lv_floor) (nb b)

/-- Source `src/vfm.py` lines 98-105: the per-slot slope coefficient sample.
Both mean and log-variance get the shared slope prior added (broadcast),
and the log-variance additionally gets `is_test * lv_floor` per row. -/
def slopeCoef (ops : ScalarOps α) (m : VFM α n_features n_dim)
    (loc : Fin bs → Fin nf → Fin n_features) (is_test : Fin bs → α)
    (lv_floor : α) (ns : Fin bs → Fin nf → α) :
    Fin bs → Fin nf → α :=
  fun b i =>
    gaussianSample ops (m.slope_mu (loc b i) + m.prior_slope_mu)
      (m.slope_lv (loc b i) + m.prior_slope_lv + is_test b * lv_floor) (ns b i)

/-- Source `src/vfm.py` line 106: `slop = sum(coef * val, axis=1)`. -/
def slopeSum (val : Fin bs → Fin nf → α) (coef : Fin bs → Fin nf → α) :
    Fin bs → α :=
  fun b => ∑ i, coef b i * val b i

/-- Source `src/vfm.py` lines 111-118: the per-slot sampled latent vector `vi`,
with the shared latent prior added to mean and log-variance and the
`is_test * lv_floor` row offset on the log-variance. -/
def latentSample (ops : ScalarOps α) (m : VFM α n_features n_dim)
    (loc : Fin bs → Fin nf → Fin n_features) (is_test : Fin bs → α)
    (lv_floor : α) (nv : Fin bs → Fin nf → Fin n_dim → α) :
    Fin bs → Fin nf → Fin n_dim → α :=
  fun b i d =>
    gaussianSample ops (m.latent_mu (loc b i) d + m.prior_latent_mu d)
      (m.latent_lv (loc b i) d + m.prior_latent_lv d + is_test b * lv_floor)
      (nv b i d)

/-- Source `src/vfm.py` line 121: `vij = batch_matmul(vi, vi, transb=True)`,
the per-row Gram matrix of the sampled latent vectors. -/
def gramOf (vi : Fin bs → Fin nf → Fin n_dim → α) :
    Fin bs → Fin nf → Fin nf → α :=
  fun b i j => ∑ d, vi b i d * vi b j d

/-- Source `src/vfm.py` lines 124-129: `xij = batch_matmul(val, val, transb=True)`
and `intx = sum(vij * xij * mask, axis=(1, 2))`. -/
def intxOf (vi : Fin bs → Fin nf → Fin n_dim → α)
    (val : Fin bs → Fin nf → α) (maskE : Fin bs → Fin nf → Fin nf → α) :
    Fin bs → α :=
  fun b => ∑ i, ∑ j, gramOf vi b i j * (val b i * val b j) * maskE b i j

/-- Reading the mask tensor returned by `maskCall` at batch index `b` and
slot indices `i`, `j`.  The real backend raises a shape error when the
cached tensor's shape does not cover the requested indices (that failure
mode is modelled at shape level by `forwardShapes`); here the read is
totalized with a default so the typed pipeline stays a function. -/
def maskEntryAt (t : Tensor3 α) (b i j : ℕ) : α :=
  if h : b < t.bs ∧ i < t.nf ∧ j < t.nf then
    t.entry ⟨b, h.1⟩ ⟨i, h.2.1⟩ ⟨j, h.2.2⟩
  else 0

/-- The mask actually used by a forward call with batch `bs` and `nf`
feature slots, as a `(bs, nf, nf)`-indexed function. -/
def maskUsed (c : Option (Tensor3 α)) (bs nf : ℕ) :
    Fin bs → Fin nf → Fin nf → α :=
  fun b i j => maskEntryAt (maskCall c bs nf).1 (b : ℕ) (i : ℕ) (j : ℕ)

/-- A forward call finds a usable mask: the tensor `maskCall` hands back
has the requested shape and the canonical `ones - eye` content.  This
holds whenever the cache is empty, holds a tensor of a different batch
size (rebuild), or holds the tensor previously built for `(bs, nf)`. -/
def goodMask (c : Option (Tensor3 α)) (bs nf : ℕ) : Prop :=
  (maskCall c bs nf).1 = buildMask bs nf

/-- Source `src/vfm.py` lines 131-135: `pred = bias + slop`, plus `intx` iff
`intx_term` is set. -/
def predOf (ops : ScalarOps α) (m : VFM α n_features n_dim)
    (val : Fin bs → Fin nf → α) (loc : Fin bs → Fin nf → Fin n_features)
    (is_test : Fin bs → α) (lv_floor : α)
    (nb : Fin bs → α) (ns : Fin bs → Fin nf → α)
    (nv : Fin bs → Fin nf → Fin n_dim → α)
    (maskE : Fin bs → Fin nf → Fin nf → α) : Fin bs → α :=
  fun b =>
    biasSample ops m is_test lv_floor nb b
      + slopeSum val (slopeCoef ops m loc is_test lv_floor ns) b
      + (if m.intx_term then
          intxOf (latentSample ops m loc is_test lv_floor nv) val maskE b
        else 0)

/-- Chainer `F.mean_squared_error(pred, y)`: the mean over the batch of the
squared residual. -/
def meanSquaredError (p y : Fin bs → α) : α :=
  (∑ b, (p b - y b) ^ 2) / (bs : α)

/-- The metrics record reported on `src/vfm.py` lines 157-159:
`{loss, rmse, reg0, regt, reg1, reg2, bias}`. -/
structure Logs (α : Type) where
  loss : α
  rmse : α
  reg0 : α
  regt : α
  reg1 : α
  reg2 : α
  bias : α

/-- What a forward call produces: the returned scalar loss, the reported
metrics, and the model state after the call (the only assignment
`forward` performs is `self._mask`, inside `mask`). -/
structure FwdResult (α : Type) (n_features n_dim : ℕ) where
  loss : α
  logs : Logs α
  model : VFM α n_features n_dim

/-- Source `src/vfm.py` lines 59-160 (`VFM.forward`).  Inputs are the feature
values `val`, the feature indices `loc` (both `(bs, nf)`), the targets
`y`, the per-row test flags `is_test` (both `(bs,)`), the log-variance
floor `lv_floor` (default `-100` in the source, see `VFM.call`), and the
standard-normal noise consumed by the three `F.gaussian` sites.
`frac = loc.shape[0] / total_nobs` on line 142 is `bs / total_nobs`. -/
def VFM.forward (ops : ScalarOps α) (m : VFM α n_features n_dim)
    (val : Fin bs → Fin nf → α) (loc : Fin bs → Fin nf → Fin n_features)
    (y : Fin bs → α) (is_test : Fin bs → α) (lv_floor : α)
    (nb : Fin bs → α) (ns : Fin bs → Fin nf → α)
    (nv : Fin bs → Fin nf → Fin n_dim → α) :
    FwdResult α n_features n_dim :=
  let mk := maskCall m._mask bs nf
  let pred := predOf ops m val loc is_test lv_floor nb ns nv
    (fun b i j => maskEntryAt mk.1 (b : ℕ) (i : ℕ) (j : ℕ))
  let mse := meanSquaredError pred y
  let frac := (bs : α) / m.total_nobs
  let loss := mse + regtOf ops m * frac
  ⟨loss,
    ⟨loss, ops.sqrt mse, reg0 ops m, regtOf ops m, reg1 ops m, reg2 ops m,
      m.bias_mu⟩,
    { m with _mask := mk.2 }⟩

/-- Source `src/vfm.py` lines 162-163 (`__call__`): forward with the default
`lv_floor = -100`. -/
def VFM.call (ops : ScalarOps α) (m : VFM α n_features n_dim)
    (val : Fin bs → Fin nf → α) (loc : Fin bs → Fin nf → Fin n_features)
    (y : Fin bs → α) (is_test : Fin bs → α)
    (nb : Fin bs → α) (ns : Fin bs → Fin nf → α)
    (nv : Fin bs → Fin nf → Fin n_dim → α) :
    FwdResult α n_features n_dim :=
  VFM.forward ops m val loc y is_test (-100) nb ns nv

end Model

section SpecModelDefs

variable {α : Type} [Field α] {n_features n_dim : ℕ}

/-- Modelled from the spec: the closed-form KL divergence between two
Gaussians given by mean and log-variance,
`KL(N(m1, exp l1) || N(m2, exp l2))`. -/
def gaussianKLGen (ops : ScalarOps α) (m1 l1 m2 l2 : α) : α :=
  (l2 - l1 + ops.exp (l1 - l2) + (m1 - m2) * (m1 - m2) * ops.exp (-l2) - 1) / 2

/-- Modelled from the spec (the C2 reading): the total regularization with
the feature-level posteriors (slope, latent — mean/log-variance with the
learned prior added) penalized by their KL against the learned prior, and
the remaining groups against the standard normal. -/
def regtSpecC2 (ops : ScalarOps α) (m : VFM α n_features n_dim) : α :=
  gaussianKLTerm ops m.bias_mu m.bias_lv * m.lambda0
    + (∑ f, gaussianKLGen ops (m.slope_mu f + m.prior_slope_mu)
        (m.slope_lv f + m.prior_slope_lv) m.prior_slope_mu m.prior_slope_lv)
      * m.lambda1
    + (∑ f, ∑ d, gaussianKLGen ops (m.latent_mu f d + m.prior_latent_mu d)
        (m.latent_lv f d + m.prior_latent_lv d) (m.prior_latent_mu d)
        (m.prior_latent_lv d)) * m.lambda2
    + (∑ d, gaussianKLTerm ops (m.prior_latent_mu d) (m.prior_latent_lv d))
      * m.lambda0
    + gaussianKLTerm ops m.prior_slope_mu m.prior_slope_lv * m.lambda0

/-- A concrete model over `ℝ` separating the code's regularization from
the spec-claimed one: one feature, one latent dimension, slope posterior
`N(1, e^0)`, learned slope prior log-variance `1`, `lambda1 = 1`, all
other parameters and weights zero. -/
def mC2 : VFM ℝ 1 1 :=
  ⟨0, 0, fun _ => 1, fun _ => 0, 0, 1, fun _ _ => 0, fun _ _ => 0,
    fun _ => 0, fun _ => 0, 0, 1, 0, true, 1, none⟩

/-- Source `src/vfm.py` lines 13-49 (`VFM.__init__`).  The source performs no
configuration validation of its own; the only failure is inherited from
the backend: allocating a parameter tensor with a negative dimension
(`L.EmbedID` / `L.Bias` on lines 27-36) raises, which is the `none`
branch here.  `rLatMu`, `rLatLv`, `rSlMu`, `rSlLv` are the
`np.random.randn` draws of lines 42-45; the Xavier scale factors are
`c = sqrt(n_features * n_dim)` and `d = sqrt(n_features)`.  The bias
parameters are zeroed and offset by `init_bias_mu` / `init_bias_lv`
(lines 46-49); the prior parameters keep their zero initialization; the
mask cache starts empty. -/
def VFM.init (ops : ScalarOps α) (n_features n_dim : ℤ)
    (lambda0 lambda1 lambda2 : α) (init_bias_mu init_bias_lv : α)
    (intx_term : Bool) (total_nobs : α)
    (rLatMu rLatLv : ℕ → ℕ → α) (rSlMu rSlLv : ℕ → α) :
    Option (VFM α n_features.toNat n_dim.toNat) :=
  if n_features < 0 ∨ n_dim < 0 then none
  else
    some
      { bias_mu := init_bias_mu
        bias_lv := init_bias_lv
        slope_mu := fun f => rSlMu (f : ℕ) / ops.sqrt ((n_features : ℤ) : α)
        slope_lv := fun f =>
          rSlLv (f : ℕ) / ops.sqrt ((n_features : ℤ) : α) - 2
        prior_slope_mu := 0
        prior_slope_lv := 0
        latent_mu := fun f k =>
          rLatMu (f : ℕ) (k : ℕ) / ops.sqrt ((n_features * n_dim : ℤ) : α)
        latent_lv := fun f k =>
          rLatLv (f : ℕ) (k : ℕ) / ops.sqrt ((n_features * n_dim : ℤ) : α) - 2
        prior_latent_mu := fun _ => 0
        prior_latent_lv := fun _ => 0
        lambda0 := lambda0
        lambda1 := lambda1
        lambda2 := lambda2
        intx_term := intx_term
        total_nobs := total_nobs
        _mask := none }

end SpecModelDefs

section ShapeDefs

/-! Shape-level semantics of the forward call, for the failure behaviour on
malformed inputs.  Each tensor is abstracted to its shape (a `List ℕ`);
every backend operation of `src/vfm.py` lines 83-138 is rendered, in
source order, as a partial function on shapes (`none` = the backend
raises), with numpy-style broadcasting.  The mask cache is consulted —
and possibly overwritten — on line 85, before any shape can fail.
-/

/-- Numpy broadcasting of two aligned dimensions. -/
def bdim (a b : ℕ) : Option ℕ :=
  if a = b then some a
  else if a = 1 then some b
  else if b = 1 then some a
  else none

/-- Broadcasting of two reversed shape lists (trailing-aligned). -/
def bcastRev : List ℕ → List ℕ → Option (List ℕ)
  | [], ys => some ys
  | x :: xs, [] => some (x :: xs)
  | x :: xs, y :: ys => do
    let d ← bdim x y
    let r ← bcastRev xs ys
    pure (d :: r)

/-- The broadcast shape of an elementwise binary operation, or `none` if
the shapes are incompatible. -/
def bshape (xs ys : List ℕ) : Option (List ℕ) :=
  (bcastRev xs.reverse ys.reverse).map List.reverse

/-- Chainer `F.broadcast_to(x, s)`: succeeds iff `x` broadcasts to exactly `s`. -/
def broadcastTo (xs s : List ℕ) : Option (List ℕ) :=
  if bshape xs s = some s then some s else none

/-- Chainer `F.gaussian(mu, lv)` type check: mean and log-variance shapes must
agree exactly. -/
def gaussShape (a b : List ℕ) : Option (List ℕ) :=
  if a = b then some a else none

/-- Chainer `F.reshape(x, s)`: element counts must agree. -/
def reshapeTo (xs s : List ℕ) : Option (List ℕ) :=
  if xs.prod = s.prod then some s else none

/-- Chainer `F.sum(x, axis=1)`. -/
def sumAxis1 : List ℕ → Option (List ℕ)
  | a :: _ :: rest => some (a :: rest)
  | _ => none

/-- Chainer `F.sum(x, axis=(1, 2))`. -/
def sumAxes12 : List ℕ → Option (List ℕ)
  | a :: _ :: _ :: rest => some (a :: rest)
  | _ => none

/-- Chainer `F.batch_matmul` operand normalization: a rank-2 batch of vectors is
treated as a batch of column matrices; rank 3 is used as is. -/
def bmatShape : List ℕ → Option (List ℕ)
  | [a, b] => some [a, b, 1]
  | [a, b, c] => some [a, b, c]
  | _ => none

/-- Chainer `F.batch_matmul(a, b, transb=True)`: batch sizes must agree and the
two column counts must agree; result is `(B, rows a, rows b)`. -/
def bmatmulT (a b : List ℕ) : Option (List ℕ) := do
  let a2 ← bmatShape a
  let b2 ← bmatShape b
  match a2, b2 with
  | [ab, an, am], [bb, bn, bm] =>
    if ab = bb ∧ am = bm then some [ab, an, bn] else none
  | _, _ => none

/-- Chainer `F.mean_squared_error(x, y)`: shapes must agree exactly; scalar out. -/
def mseShape (a b : List ℕ) : Option (List ℕ) :=
  if a = b then some [] else none

/-- Shape steps of the bias block (`src/vfm.py` lines 89-93): broadcast
the bias parameters to the target shape, add the scaled test flags,
sample, broadcast again. -/
def biasShapes (yS itS : List ℕ) : Option (List ℕ) := do
  let ybc ← broadcastTo [1] yS
  let t1 ← bshape ybc itS
  let biasS ← gaussShape ybc t1
  broadcastTo biasS yS

/-- Shape steps of the slope block (`src/vfm.py` lines 98-106): embed the
indices, add the broadcast prior, add the reshaped/broadcast test-flag
floor, sample, reshape to the value shape, multiply and sum over axis 1. -/
def slopeShapes (bs nf : ℕ) (valS locS itS : List ℕ) : Option (List ℕ) := do
  let prS ← broadcastTo [1, 1, 1] [bs, nf, 1]
  let slmuS ← bshape (locS ++ [1]) prS
  let sllvS ← bshape (locS ++ [1]) prS
  let itr ← reshapeTo itS [bs, 1, 1]
  let slvcS ← broadcastTo itr [bs, nf, 1]
  let g1 ← bshape sllvS slvcS
  let gs ← gaussShape slmuS g1
  let coefS ← reshapeTo gs valS
  let cv ← bshape coefS valS
  sumAxis1 cv

/-- Shape steps of the latent block (`src/vfm.py` lines 111-118): embed
the indices, add the broadcast latent prior and the test-flag floor,
sample the latent vectors. -/
def latentShapes (bs nf nD : ℕ) (locS itS : List ℕ) : Option (List ℕ) := do
  let prS2 ← broadcastTo [1, 1, nD] [bs, nf, nD]
  let vimuS ← bshape (locS ++ [nD]) prS2
  let vilvS ← bshape (locS ++ [nD]) prS2
  let itr2 ← reshapeTo itS [bs, 1, 1]
  let vivcS ← broadcastTo itr2 [bs, nf, nD]
  let g2 ← bshape vilvS vivcS
  gaussShape vimuS g2

/-- Shape steps of the interaction block (`src/vfm.py` lines 121-129):
the two batched Gram/outer products, the elementwise triple product with
the mask in use, and the sum over axes 1 and 2. -/
def intxShapes (maskS viS valS : List ℕ) : Option (List ℕ) := do
  let vijS ← bmatmulT viS viS
  let xijS ← bmatmulT valS valS
  let p1 ← bshape vijS xijS
  let p2 ← bshape p1 maskS
  sumAxes12 p2

/-- The shape pipeline of `forward` after the mask lookup
(`src/vfm.py` lines 89-154), given the shape `maskS` of the mask tensor
in use; `none` means the call raises at the first incompatible
operation, in source order: bias block, slope block, latent block,
interaction block, prediction, mean squared error. -/
def forwardShapesCore (maskS : List ℕ) (bs nf nD : ℕ)
    (valS locS yS itS : List ℕ) (intx : Bool) : Option (List ℕ) := do
  let biasS ← biasShapes yS itS
  let slopS ← slopeShapes bs nf valS locS itS
  let viS ← latentShapes bs nf nD locS itS
  let intxS ← intxShapes maskS viS valS
  let predS ← bshape biasS slopS
  let predF ← if intx then bshape predS intxS else pure predS
  mseShape predF yS

/-- The shape-level forward call (`src/vfm.py` lines 83-154): reading
`val.shape[1]` fails for rank-< 2 `val` before the mask is touched;
otherwise the mask cache is consulted and possibly overwritten first, and
only then does the pipeline — which may fail on mismatched shapes —
run.  Returns the loss shape (or `none` on failure) and the cache cell
after the call. -/
def forwardShapes (c : Option (Tensor3 ℚ)) (valS locS yS itS : List ℕ)
    (nD : ℕ) (intx : Bool) : Option (List ℕ) × Option (Tensor3 ℚ) :=
  match valS with
  | bs :: nf :: _ =>
    let mk := maskCall c bs nf
    (forwardShapesCore [mk.1.bs, mk.1.nf, mk.1.nf] bs nf nD valS locS yS itS
      intx, mk.2)
  | _ => (none, c)

end ShapeDefs

section ConcreteData

/-- Identity stand-ins for the backend scalar functions, used to evaluate
the pipeline on concrete rational inputs (the structural theorems hold
for every choice of `exp` / `sqrt`). -/
def opsQ : ScalarOps ℚ := ⟨id, id⟩

/-- A small concrete model over `ℚ`: one feature, one latent dimension. -/
def mQ : VFM ℚ 1 1 :=
  ⟨0, 0, fun _ => 1, fun _ => 0, 0, 0, fun _ _ => 1, fun _ _ => 0,
    fun _ => 0, fun _ => 0, 1, 1, 1, true, 1, none⟩

/-- Model `mQ` with the interaction term disabled. -/
def mQlin : VFM ℚ 1 1 := { mQ with intx_term := false }

/-- Model `mQ` with a mask already cached for batch size 1. -/
def mQcache : VFM ℚ 1 1 := { mQ with _mask := some (buildMask 1 1) }

/-- Concrete feature values for a one-row, one-slot batch. -/
def valQ : Fin 1 → Fin 1 → ℚ := fun _ _ => 2

/-- Concrete feature indices. -/
def locQ : Fin 1 → Fin 1 → Fin 1 := fun _ _ => 0

/-- Concrete targets. -/
def yQ : Fin 1 → ℚ := fun _ => 1

/-- All-zero row vector (used as `is_test` and as bias noise). -/
def zQ : Fin 1 → ℚ := fun _ => 0

/-- All-zero slope noise. -/
def nsQ : Fin 1 → Fin 1 → ℚ := fun _ _ => 0

/-- All-zero latent noise. -/
def nvQ : Fin 1 → Fin 1 → Fin 1 → ℚ := fun _ _ _ => 0

/-- Replacement latent posterior mean used by the C9 witness. -/
def lmuQ : Fin 1 → Fin 1 → ℚ := fun _ _ => 3

/-- Replacement latent posterior log-variance used by the C9 witness. -/
def llvQ : Fin 1 → Fin 1 → ℚ := fun _ _ => 4

/-- Replacement latent prior mean used by the C9 witness. -/
def plmuQ : Fin 1 → ℚ := fun _ => 5

/-- Replacement latent prior log-variance used by the C9 witness. -/
def pllvQ : Fin 1 → ℚ := fun _ => 6

/-- A concrete all-zero model over `ℝ` for the C4 witness. -/
def mR : VFM ℝ 1 1 :=
  ⟨0, 0, fun _ => 0, fun _ => 0, 0, 0, fun _ _ => 0, fun _ _ => 0,
    fun _ => 0, fun _ => 0, 0, 0, 0, true, 1, none⟩

/-- Concrete real feature values. -/
def valR : Fin 1 → Fin 1 → ℝ := fun _ _ => 1

/-- Concrete real feature indices. -/
def locR : Fin 1 → Fin 1 → Fin 1 := fun _ _ => 0

/-- All-ones row vector over `ℝ` (the all-test flag). -/
def oneR : Fin 1 → ℝ := fun _ => 1

/-- All-zero row vector over `ℝ`. -/
def zR : Fin 1 → ℝ := fun _ => 0

/-- All-zero slope noise over `ℝ`. -/
def nsR : Fin 1 → Fin 1 → ℝ := fun _ _ => 0

/-- All-zero latent noise over `ℝ`. -/
def nvR : Fin 1 → Fin 1 → Fin 1 → ℝ := fun _ _ _ => 0

/-- All-ones slope noise over `ℝ` (the second, different noise draw). -/
def nsR2 : Fin 1 → Fin 1 → ℝ := fun _ _ => 1

/-- All-ones latent noise over `ℝ`. -/
def nvR2 : Fin 1 → Fin 1 → Fin 1 → ℝ := fun _ _ _ => 1

end ConcreteData

section MaskTheorems

variable {α : Type} [Field α]

lemma maskCall_fst_bs (c : Option (Tensor3 α)) (bs nf : ℕ) :
    ((maskCall c bs nf).1).bs = bs := by
  cases c with
  | none => rfl
  | some m =>
    dsimp [maskCall]
    split_ifs with h
    · exact h
    · rfl

lemma maskCall_snd_eq (c : Option (Tensor3 α)) (bs nf : ℕ) :
    (maskCall c bs nf).2 = some (maskCall c bs nf).1 := by
  cases c with
  | none => rfl
  | some m =>
    dsimp [maskCall]
    split_ifs <;> rfl

lemma maskCall_cached (m : Tensor3 α) (bs nf : ℕ) (h : m.bs = bs) :
    maskCall (some m) bs nf = (m, some m) := by
  dsimp [maskCall]
  rw [if_neg (by simp [h])]

lemma maskCall_rebuild (m : Tensor3 α) (bs nf : ℕ) (h : m.bs ≠ bs) :
    maskCall (some m) bs nf = (buildMask bs nf, some (buildMask bs nf)) := by
  dsimp [maskCall]
  rw [if_pos h]

/-- Under `goodMask`, the mask entries a forward call reads are the
canonical diagonal-exclusion values. -/
lemma maskEntry_of_goodMask (c : Option (Tensor3 α)) (bs nf : ℕ)
    (h : goodMask c bs nf) :
    (fun (b : Fin bs) (i : Fin nf) (j : Fin nf) =>
        maskEntryAt (maskCall c bs nf).1 (b : ℕ) (i : ℕ) (j : ℕ))
      = fun (_ : Fin bs) (i j : Fin nf) =>
          if (i : ℕ) = (j : ℕ) then (0 : α) else 1 := by
  funext b i j
  rw [goodMask] at h
  rw [h]
  dsimp only [maskEntryAt, buildMask]
  rw [dif_pos ⟨b.isLt, i.isLt, j.isLt⟩]
  by_cases hij : (i : ℕ) = (j : ℕ) <;> simp [hij]

/-- C5 — The mask cache is keyed on batch size only: every call caches
exactly the tensor it returns; a second call with the same `bs` returns
that same previously built tensor and leaves the cache untouched, no
matter which `nf` it requests; a call with a different `bs` builds and
caches a fresh `ones - eye` tensor of the requested shape. -/
theorem mask_cache_keyed_on_bs (c : Option (Tensor3 α))
    (bs nf nf' bs' nf'' : ℕ) :
    (maskCall c bs nf).2 = some (maskCall c bs nf).1
    ∧ maskCall (maskCall c bs nf).2 bs nf'
        = ((maskCall c bs nf).1, (maskCall c bs nf).2)
    ∧ (bs' ≠ bs →
        maskCall (maskCall c bs nf).2 bs' nf''
          = (buildMask bs' nf'', some (buildMask (α := α) bs' nf''))) := by
  have hsnd := maskCall_snd_eq c bs nf
  have hbs := maskCall_fst_bs c bs nf
  refine ⟨hsnd, ?_, ?_⟩
  · rw [hsnd, maskCall_cached _ bs nf' hbs]
  · intro hne
    rw [hsnd, maskCall_rebuild _ bs' nf'' (by rw [hbs]; exact hne.symm)]

/-- C5 witness: a concrete run of the cache protocol at `α = ℚ`. -/
theorem mask_cache_keyed_on_bs_witness :
    (maskCall (α := ℚ) none 1 2).2 = some (maskCall (α := ℚ) none 1 2).1
    ∧ maskCall (maskCall (α := ℚ) none 1 2).2 1 3
        = ((maskCall (α := ℚ) none 1 2).1, (maskCall (α := ℚ) none 1 2).2)
    ∧ maskCall (maskCall (α := ℚ) none 1 2).2 2 1
        = (buildMask 2 1, some (buildMask (α := ℚ) 2 1)) := by
  have h := mask_cache_keyed_on_bs (α := ℚ) none 1 2 3 2 1
  exact ⟨h.1, h.2.1, h.2.2 (by decide)⟩

/-- C6 counterexample — `mask(bs, nf)` does not always return a tensor of
shape `(bs, nf, nf)`: with a cached mask built for `(bs, nf) = (1, 2)`,
the call `mask(1, 3)` hits the cache (same batch size) and returns the
stale `(1, 2, 2)` tensor instead of a `(1, 3, 3)` one. -/
theorem mask_shape_claim_cex :
    ((maskCall (α := ℚ) (some (buildMask 1 2)) 1 3).1).nf = 2
    ∧ ((maskCall (α := ℚ) (some (buildMask 1 2)) 1 3).1).nf ≠ 3 := by
  constructor
  · rfl
  · intro h
    exact absurd h (by decide)

/-- C6 amended — for all `bs ≥ 1`, `nf ≥ 1`, whenever the cache cannot be
hit (it is empty or its tensor has a different batch size), `mask(bs, nf)`
returns the freshly built tensor of shape `(bs, nf, nf)` whose every batch
slice is `1` off the diagonal and exactly `0` on the diagonal. -/
theorem mask_shape_on_rebuild (c : Option (Tensor3 α)) (bs nf : ℕ)
    (hb : 1 ≤ bs) (hf : 1 ≤ nf) (hc : ∀ t, c = some t → t.bs ≠ bs) :
    (maskCall c bs nf).1 = buildMask bs nf
    ∧ ((buildMask (α := α) bs nf).bs = bs
        ∧ (buildMask (α := α) bs nf).nf = nf)
    ∧ (∀ (b : Fin bs) (i j : Fin nf),
        (buildMask (α := α) bs nf).entry b i j
          = if (i : ℕ) = (j : ℕ) then 0 else 1) := by
  refine ⟨?_, ⟨rfl, rfl⟩, ?_⟩
  · cases c with
    | none => rfl
    | some t =>
      dsimp [maskCall]
      rw [if_pos (hc t rfl)]
  · intro b i j
    by_cases h : (i : ℕ) = (j : ℕ) <;> simp [buildMask, h]

/-- C6 amended witness: rebuild at `bs = 1`, `nf = 3` over a cache that
holds a tensor of batch size 2. -/
theorem mask_shape_on_rebuild_witness :
    ((1 ≤ 1 ∧ 1 ≤ 3)
      ∧ ∀ t, (some (buildMask (α := ℚ) 2 2)) = some t → t.bs ≠ 1)
    ∧ ((maskCall (some (buildMask (α := ℚ) 2 2)) 1 3).1 = buildMask 1 3
        ∧ ((buildMask (α := ℚ) 1 3).bs = 1 ∧ (buildMask (α := ℚ) 1 3).nf = 3)
        ∧ (∀ (b : Fin 1) (i j : Fin 3),
            (buildMask (α := ℚ) 1 3).entry b i j
              = if (i : ℕ) = (j : ℕ) then 0 else 1)) := by
  have hc : ∀ t, (some (buildMask (α := ℚ) 2 2)) = some t → t.bs ≠ 1 := by
    intro t ht
    cases ht
    decide
  exact ⟨⟨⟨by decide, by decide⟩, hc⟩,
    mask_shape_on_rebuild (some (buildMask (α := ℚ) 2 2)) 1 3
      (by decide) (by decide) hc⟩

end MaskTheorems

section ForwardTheorems

variable {α : Type} [Field α] {n_features n_dim bs nf : ℕ}

/-- C1 — the scalar loss returned by a valid forward call is the mean
squared error between the prediction and `y`, plus the summed
regularization — `lambda1` times the slope KL, `lambda2` times the latent
KL, and `lambda0` times each of the bias, prior-latent and prior-slope
KLs — scaled by `bs / total_nobs`. -/
theorem forward_loss_assembly (ops : ScalarOps α) (m : VFM α n_features n_dim)
    (val : Fin bs → Fin nf → α) (loc : Fin bs → Fin nf → Fin n_features)
    (y : Fin bs → α) (is_test : Fin bs → α) (lv_floor : α)
    (nb : Fin bs → α) (ns : Fin bs → Fin nf → α)
    (nv : Fin bs → Fin nf → Fin n_dim → α)
    (hm : goodMask m._mask bs nf) :
    (VFM.forward ops m val loc y is_test lv_floor nb ns nv).loss
      = meanSquaredError
          (predOf ops m val loc is_test lv_floor nb ns nv
            (fun _ i j => if (i : ℕ) = (j : ℕ) then (0 : α) else 1)) y
        + (reg1 ops m * m.lambda1 + reg2 ops m * m.lambda2
            + (reg0 ops m + reg3 ops m + reg4 ops m) * m.lambda0)
          * ((bs : α) / m.total_nobs) := by
  dsimp only [VFM.forward]
  rw [maskEntry_of_goodMask _ _ _ hm]
  dsimp only [regtOf]
  ring

/-- C2 amended — every one of the five KL regularization groups of a
forward call is computed against the standard normal (chainer's
`gaussian_kl_divergence` takes no reference distribution), and the
feature-level groups (slope, latent) are taken on the raw per-feature
parameters, without the learned prior added. -/
theorem regt_all_standard_normal (ops : ScalarOps α)
    (m : VFM α n_features n_dim)
    (val : Fin bs → Fin nf → α) (loc : Fin bs → Fin nf → Fin n_features)
    (y : Fin bs → α) (is_test : Fin bs → α) (lv_floor : α)
    (nb : Fin bs → α) (ns : Fin bs → Fin nf → α)
    (nv : Fin bs → Fin nf → Fin n_dim → α) :
    (VFM.forward ops m val loc y is_test lv_floor nb ns nv).logs.regt
      = gaussianKLTerm ops m.bias_mu m.bias_lv * m.lambda0
        + (∑ f, gaussianKLTerm ops (m.slope_mu f) (m.slope_lv f)) * m.lambda1
        + (∑ f, ∑ d, gaussianKLTerm ops (m.latent_mu f d) (m.latent_lv f d))
          * m.lambda2
        + (∑ d, gaussianKLTerm ops (m.prior_latent_mu d) (m.prior_latent_lv d))
          * m.lambda0
        + gaussianKLTerm ops m.prior_slope_mu m.prior_slope_lv * m.lambda0 := by
  dsimp only [VFM.forward, regtOf, reg0, reg1, reg2, reg3, reg4]
  ring

/-- C2 counterexample — on `mC2`, the regularization reported by the
forward call is `1/2` (standard-normal KL of the raw slope parameters)
while the spec-claimed prior-referenced KL is `exp(-1)/2`; they differ. -/
theorem regt_prior_kl_cex :
    (VFM.forward ⟨Real.exp, Real.sqrt⟩ mC2
        (fun (_ : Fin 1) (_ : Fin 1) => (0 : ℝ)) (fun _ _ => 0) (fun _ => 0)
        (fun _ => 0) (-100) (fun _ => 0) (fun _ _ => 0)
        (fun _ _ _ => 0)).logs.regt
      ≠ regtSpecC2 ⟨Real.exp, Real.sqrt⟩ mC2 := by
  have he : Real.exp (-1) < 1 := Real.exp_lt_one_iff.mpr (by norm_num)
  dsimp [VFM.forward, regtOf, regtSpecC2, reg0, reg1, reg2, reg3, reg4,
    gaussianKLTerm, gaussianKLGen, mC2]
  simp only [Fin.sum_univ_one]
  intro h
  rw [Real.exp_zero] at h
  norm_num at h
  linarith

lemma gramOf_symm (vi : Fin bs → Fin nf → Fin n_dim → α) (b : Fin bs)
    (i j : Fin nf) : gramOf vi b i j = gramOf vi b j i :=
  Finset.sum_congr rfl fun _ _ => mul_comm _ _

lemma sum_offdiag_eq_twice (g : Fin nf → Fin nf → α)
    (hs : ∀ i j, g i j = g j i) :
    (∑ i : Fin nf, ∑ j : Fin nf, if (i : ℕ) = (j : ℕ) then 0 else g i j)
      = 2 * ∑ i : Fin nf, ∑ j : Fin nf,
          if (i : ℕ) < (j : ℕ) then g i j else 0 := by
  have step : ∀ i j : Fin nf,
      (if (i : ℕ) = (j : ℕ) then (0 : α) else g i j)
        = (if (i : ℕ) < (j : ℕ) then g i j else 0)
          + (if (j : ℕ) < (i : ℕ) then g i j else 0) := by
    intro i j
    rcases Nat.lt_trichotomy (i : ℕ) (j : ℕ) with h | h | h
    · rw [if_neg (by omega), if_pos h, if_neg (by omega), add_zero]
    · rw [if_pos h, if_neg (by omega), if_neg (by omega), add_zero]
    · rw [if_neg (by omega), if_neg (by omega), if_pos h, zero_add]
  simp only [step, Finset.sum_add_distrib]
  have hswap : (∑ i : Fin nf, ∑ j : Fin nf,
        if (j : ℕ) < (i : ℕ) then g i j else 0)
      = ∑ i : Fin nf, ∑ j : Fin nf,
        if (i : ℕ) < (j : ℕ) then g i j else 0 := by
    rw [Finset.sum_comm]
    refine Finset.sum_congr rfl fun i _ => Finset.sum_congr rfl fun j _ => ?_
    rw [hs j i]
  rw [hswap, two_mul]

/-- C3 — per row, the interaction term used by a valid forward call is the
sum over all ordered pairs of distinct slots `i ≠ j` of
`<v_i, v_j> * x_i * x_j` built from the sampled latent vectors, which
equals twice the standard factorization-machine pairwise sum over
unordered pairs `i < j`. -/
theorem intx_ordered_pairs (ops : ScalarOps α) (m : VFM α n_features n_dim)
    (val : Fin bs → Fin nf → α) (loc : Fin bs → Fin nf → Fin n_features)
    (is_test : Fin bs → α) (lv_floor : α)
    (nv : Fin bs → Fin nf → Fin n_dim → α)
    (hm : goodMask m._mask bs nf) (b : Fin bs) :
    intxOf (latentSample ops m loc is_test lv_floor nv) val
        (fun bb i j =>
          maskEntryAt (maskCall m._mask bs nf).1 (bb : ℕ) (i : ℕ) (j : ℕ)) b
      = (∑ i : Fin nf, ∑ j : Fin nf, if (i : ℕ) ≠ (j : ℕ) then
          gramOf (latentSample ops m loc is_test lv_floor nv) b i j
            * (val b i * val b j) else 0)
    ∧ intxOf (latentSample ops m loc is_test lv_floor nv) val
        (fun bb i j =>
          maskEntryAt (maskCall m._mask bs nf).1 (bb : ℕ) (i : ℕ) (j : ℕ)) b
      = 2 * ∑ i : Fin nf, ∑ j : Fin nf, if (i : ℕ) < (j : ℕ) then
          gramOf (latentSample ops m loc is_test lv_floor nv) b i j
            * (val b i * val b j) else 0 := by
  set vi := latentSample ops m loc is_test lv_floor nv with hvi
  have hmaskP : ∀ (bb : Fin bs) (i j : Fin nf),
      maskEntryAt (maskCall m._mask bs nf).1 (bb : ℕ) (i : ℕ) (j : ℕ)
        = if (i : ℕ) = (j : ℕ) then (0 : α) else 1 :=
    fun bb i j =>
      congrFun (congrFun (congrFun (maskEntry_of_goodMask m._mask bs nf hm) bb) i) j
  have base : intxOf vi val
      (fun bb i j =>
        maskEntryAt (maskCall m._mask bs nf).1 (bb : ℕ) (i : ℕ) (j : ℕ)) b
      = ∑ i : Fin nf, ∑ j : Fin nf, if (i : ℕ) = (j : ℕ) then 0
          else gramOf vi b i j * (val b i * val b j) := by
    rw [intxOf]
    refine Finset.sum_congr rfl fun i _ => Finset.sum_congr rfl fun j _ => ?_
    rw [hmaskP b i j]
    by_cases h : (i : ℕ) = (j : ℕ) <;> simp [h]
  constructor
  · rw [base]
    exact Finset.sum_congr rfl fun i _ => Finset.sum_congr rfl fun j _ => by
      by_cases h : (i : ℕ) = (j : ℕ) <;> simp [h]
  · rw [base]
    exact sum_offdiag_eq_twice _ fun i j => by
      rw [gramOf_symm, mul_comm (val b j) (val b i)]

/-- C9 — when `intx_term` is false, the prediction of a forward call is
bias plus slope sum only, and changing the latent-side parameters
(per-feature latent posteriors and the shared latent prior) changes the
returned loss exactly by the change in scaled regularization — never
through the prediction. -/
theorem no_intx_linear_regression (ops : ScalarOps α)
    (m : VFM α n_features n_dim)
    (val : Fin bs → Fin nf → α) (loc : Fin bs → Fin nf → Fin n_features)
    (y : Fin bs → α) (is_test : Fin bs → α) (lv_floor : α)
    (nb : Fin bs → α) (ns : Fin bs → Fin nf → α)
    (nv : Fin bs → Fin nf → Fin n_dim → α)
    (lmu llv : Fin n_features → Fin n_dim → α) (plmu pllv : Fin n_dim → α)
    (hflag : m.intx_term = false) :
    (VFM.forward ops m val loc y is_test lv_floor nb ns nv).loss
      = meanSquaredError
          (fun b => biasSample ops m is_test lv_floor nb b
            + slopeSum val (slopeCoef ops m loc is_test lv_floor ns) b) y
        + regtOf ops m * ((bs : α) / m.total_nobs)
    ∧ (VFM.forward ops
          { m with
            latent_mu := lmu
            latent_lv := llv
            prior_latent_mu := plmu
            prior_latent_lv := pllv }
          val loc y is_test lv_floor nb ns nv).loss
      = (VFM.forward ops m val loc y is_test lv_floor nb ns nv).loss
        + (regtOf ops
            { m with
              latent_mu := lmu
              latent_lv := llv
              prior_latent_mu := plmu
              prior_latent_lv := pllv }
            - regtOf ops m) * ((bs : α) / m.total_nobs) := by
  have hpred : predOf ops m val loc is_test lv_floor nb ns nv
      (fun b i j =>
        maskEntryAt (maskCall m._mask bs nf).1 (b : ℕ) (i : ℕ) (j : ℕ))
      = fun b => biasSample ops m is_test lv_floor nb b
          + slopeSum val (slopeCoef ops m loc is_test lv_floor ns) b := by
    funext b
    simp [predOf, hflag]
  have hpred2 : predOf ops
      { m with
        latent_mu := lmu
        latent_lv := llv
        prior_latent_mu := plmu
        prior_latent_lv := pllv } val loc is_test lv_floor nb ns nv
      (fun b i j =>
        maskEntryAt
          (maskCall
            ({ m with
              latent_mu := lmu
              latent_lv := llv
              prior_latent_mu := plmu
              prior_latent_lv := pllv })._mask bs nf).1 (b : ℕ) (i : ℕ)
          (j : ℕ))
      = fun b => biasSample ops m is_test lv_floor nb b
          + slopeSum val (slopeCoef ops m loc is_test lv_floor ns) b := by
    funext b
    simp [predOf, biasSample, slopeCoef, slopeSum, gaussianSample, hflag]
  constructor
  · dsimp only [VFM.forward]
    rw [hpred]
  · dsimp only [VFM.forward]
    rw [hpred, hpred2]
    ring

/-- C10 — a forward call leaves all ten learnable parameter tensors (and
every configuration field) unchanged: the state after the call is the old
state with `_mask` replaced by the `maskCall` cache cell; and when the
cached mask already has batch size `bs`, the state is completely
unchanged. -/
theorem forward_frame (ops : ScalarOps α) (m : VFM α n_features n_dim)
    (val : Fin bs → Fin nf → α) (loc : Fin bs → Fin nf → Fin n_features)
    (y : Fin bs → α) (is_test : Fin bs → α) (lv_floor : α)
    (nb : Fin bs → α) (ns : Fin bs → Fin nf → α)
    (nv : Fin bs → Fin nf → Fin n_dim → α) :
    ((VFM.forward ops m val loc y is_test lv_floor nb ns nv).model
        = { m with _mask := (maskCall m._mask bs nf).2 })
    ∧ ((VFM.forward ops m val loc y is_test lv_floor nb ns nv).model.bias_mu
          = m.bias_mu
        ∧ (VFM.forward ops m val loc y is_test lv_floor nb ns nv).model.bias_lv
          = m.bias_lv
        ∧ (VFM.forward ops m val loc y is_test lv_floor nb ns nv).model.slope_mu
          = m.slope_mu
        ∧ (VFM.forward ops m val loc y is_test lv_floor nb ns nv).model.slope_lv
          = m.slope_lv
        ∧ (VFM.forward ops m val loc y is_test lv_floor nb ns
            nv).model.prior_slope_mu = m.prior_slope_mu
        ∧ (VFM.forward ops m val loc y is_test lv_floor nb ns
            nv).model.prior_slope_lv = m.prior_slope_lv
        ∧ (VFM.forward ops m val loc y is_test lv_floor nb ns
            nv).model.latent_mu = m.latent_mu
        ∧ (VFM.forward ops m val loc y is_test lv_floor nb ns
            nv).model.latent_lv = m.latent_lv
        ∧ (VFM.forward ops m val loc y is_test lv_floor nb ns
            nv).model.prior_latent_mu = m.prior_latent_mu
        ∧ (VFM.forward ops m val loc y is_test lv_floor nb ns
            nv).model.prior_latent_lv = m.prior_latent_lv)
    ∧ (∀ t, m._mask = some t → t.bs = bs →
        (VFM.forward ops m val loc y is_test lv_floor nb ns nv).model = m) := by
  refine ⟨rfl, ⟨rfl, rfl, rfl, rfl, rfl, rfl, rfl, rfl, rfl, rfl⟩, ?_⟩
  intro t ht hbs
  show { m with _mask := (maskCall m._mask bs nf).2 } = m
  rw [ht, maskCall_cached t bs nf hbs, ← ht]

end ForwardTheorems

section Witnesses

/-- C1 witness: the loss assembly equation at a concrete call. -/
theorem forward_loss_assembly_witness :
    goodMask mQ._mask 1 1
    ∧ (VFM.forward opsQ mQ valQ locQ yQ zQ (-100) zQ nsQ nvQ).loss
        = meanSquaredError
            (predOf opsQ mQ valQ locQ zQ (-100) zQ nsQ nvQ
              (fun _ i j => if (i : ℕ) = (j : ℕ) then (0 : ℚ) else 1)) yQ
          + (reg1 opsQ mQ * mQ.lambda1 + reg2 opsQ mQ * mQ.lambda2
              + (reg0 opsQ mQ + reg3 opsQ mQ + reg4 opsQ mQ) * mQ.lambda0)
            * (((1 : ℕ) : ℚ) / mQ.total_nobs) :=
  ⟨rfl, forward_loss_assembly opsQ mQ valQ locQ yQ zQ (-100) zQ nsQ nvQ rfl⟩

/-- C3 witness: the ordered-pair and doubled-pairwise identities at a
concrete call and row. -/
theorem intx_ordered_pairs_witness :
    goodMask mQ._mask 1 1
    ∧ (intxOf (latentSample opsQ mQ locQ zQ (-100) nvQ) valQ
          (fun bb i j =>
            maskEntryAt (maskCall mQ._mask 1 1).1 (bb : ℕ) (i : ℕ) (j : ℕ))
          (0 : Fin 1)
        = (∑ i : Fin 1, ∑ j : Fin 1, if (i : ℕ) ≠ (j : ℕ) then
            gramOf (latentSample opsQ mQ locQ zQ (-100) nvQ) (0 : Fin 1) i j
              * (valQ 0 i * valQ 0 j) else 0)
      ∧ intxOf (latentSample opsQ mQ locQ zQ (-100) nvQ) valQ
          (fun bb i j =>
            maskEntryAt (maskCall mQ._mask 1 1).1 (bb : ℕ) (i : ℕ) (j : ℕ))
          (0 : Fin 1)
        = 2 * ∑ i : Fin 1, ∑ j : Fin 1, if (i : ℕ) < (j : ℕ) then
            gramOf (latentSample opsQ mQ locQ zQ (-100) nvQ) (0 : Fin 1) i j
              * (valQ 0 i * valQ 0 j) else 0) :=
  ⟨rfl, intx_ordered_pairs opsQ mQ valQ locQ zQ (-100) nvQ rfl 0⟩

/-- C9 witness: the degenerate-to-linear-regression equations at a
concrete call of a model with `intx_term = false`. -/
theorem no_intx_linear_regression_witness :
    mQlin.intx_term = false
    ∧ ((VFM.forward opsQ mQlin valQ locQ yQ zQ (-100) zQ nsQ nvQ).loss
        = meanSquaredError
            (fun b => biasSample opsQ mQlin zQ (-100) zQ b
              + slopeSum valQ (slopeCoef opsQ mQlin locQ zQ (-100) nsQ) b) yQ
          + regtOf opsQ mQlin * (((1 : ℕ) : ℚ) / mQlin.total_nobs)
      ∧ (VFM.forward opsQ
            { mQlin with
              latent_mu := lmuQ
              latent_lv := llvQ
              prior_latent_mu := plmuQ
              prior_latent_lv := pllvQ }
            valQ locQ yQ zQ (-100) zQ nsQ nvQ).loss
        = (VFM.forward opsQ mQlin valQ locQ yQ zQ (-100) zQ nsQ nvQ).loss
          + (regtOf opsQ
              { mQlin with
                latent_mu := lmuQ
                latent_lv := llvQ
                prior_latent_mu := plmuQ
                prior_latent_lv := pllvQ }
              - regtOf opsQ mQlin) * (((1 : ℕ) : ℚ) / mQlin.total_nobs)) :=
  ⟨rfl,
    no_intx_linear_regression opsQ mQlin valQ locQ yQ zQ (-100) zQ nsQ nvQ
      lmuQ llvQ plmuQ pllvQ rfl⟩

/-- C10 witness: the frame property at a concrete call whose cache holds
a mask of the call's batch size, so the state is fully unchanged. -/
theorem forward_frame_witness :
    (mQcache._mask = some (buildMask 1 1) ∧ (buildMask (α := ℚ) 1 1).bs = 1)
    ∧ ((VFM.forward opsQ mQcache valQ locQ yQ zQ (-100) zQ nsQ nvQ).model
        = { mQcache with _mask := (maskCall mQcache._mask 1 1).2 }
      ∧ (VFM.forward opsQ mQcache valQ locQ yQ zQ (-100) zQ nsQ
          nvQ).model = mQcache) :=
  have h := forward_frame opsQ mQcache valQ locQ yQ zQ (-100) zQ nsQ nvQ
  ⟨⟨rfl, rfl⟩, h.1, h.2.2 (buildMask 1 1) rfl rfl⟩

end Witnesses

section ShapeModel

/-- C7 counterexample — a forward call with mismatched `val`/`loc` shapes
(`val` is `(1, 2)`, `loc` is `(1, 3)`) does fail, but only after the mask
cache has been mutated: starting from an empty cache, the failing call
leaves a newly built mask behind. -/
theorem forward_shape_mismatch_cex :
    (forwardShapes none [1, 2] [1, 3] [1] [1] 1 true).1 = none
    ∧ ((forwardShapes none [1, 2] [1, 3] [1] [1] 1 true).2).isSome = true := by
  exact ⟨rfl, rfl⟩

/-- C7 amended — mismatched shapes make the forward call fail at the
first incompatible tensor operation, not up front: the mask cache is
consulted and updated (exactly as `maskCall` prescribes) before any shape
validation, so a failing call can still mutate the cached state. -/
theorem forward_shape_mismatch (c : Option (Tensor3 ℚ)) (bs nf : ℕ)
    (rest locS yS itS : List ℕ) (nD : ℕ) (intx : Bool) :
    (forwardShapes c (bs :: nf :: rest) locS yS itS nD intx).2
        = (maskCall c bs nf).2
    ∧ (forwardShapes c [1, 2] [1, 3] [1] [1] nD intx).1 = none := by
  exact ⟨rfl, rfl⟩

end ShapeModel

section InitModel

variable {α : Type} [Field α]

/-- C8 counterexample — construction with `n_features = 0` (non-positive)
and all three lambdas negative succeeds: no configuration error is
raised, contradicting the claimed fail-fast validation. -/
theorem init_no_validation_cex :
    (VFM.init opsQ 0 8 (-1) (-1) (-1) 0 0 true 1 (fun _ _ => 0)
      (fun _ _ => 0) (fun _ => 0) (fun _ => 0)).isSome = true := by
  exact rfl

/-- C8 amended — construction validates nothing itself: it fails (inside
backend tensor allocation) exactly when `n_features` or `n_dim` is
negative, and succeeds for every other configuration, including zero
sizes and negative lambdas. -/
theorem init_validation (ops : ScalarOps α) (n_features n_dim : ℤ)
    (lambda0 lambda1 lambda2 init_bias_mu init_bias_lv : α) (intx : Bool)
    (total_nobs : α) (rLatMu rLatLv : ℕ → ℕ → α) (rSlMu rSlLv : ℕ → α) :
    (n_features < 0 ∨ n_dim < 0 →
      VFM.init ops n_features n_dim lambda0 lambda1 lambda2 init_bias_mu
        init_bias_lv intx total_nobs rLatMu rLatLv rSlMu rSlLv = none)
    ∧ (0 ≤ n_features → 0 ≤ n_dim →
        (VFM.init ops n_features n_dim lambda0 lambda1 lambda2 init_bias_mu
          init_bias_lv intx total_nobs rLatMu rLatLv rSlMu
          rSlLv).isSome = true) := by
  constructor
  · intro h
    rw [VFM.init, if_pos h]
  · intro h1 h2
    rw [VFM.init, if_neg (by omega)]
    rfl

/-- C8 amended witness: a negative size fails, a zero size with negative
lambdas succeeds. -/
theorem init_validation_witness :
    ((-1 : ℤ) < 0 ∨ (8 : ℤ) < 0)
    ∧ ((0 : ℤ) ≤ 0 ∧ (0 : ℤ) ≤ 8)
    ∧ VFM.init opsQ (-1) 8 (-1) (-1) (-1) 0 0 true 1 (fun _ _ => 0)
        (fun _ _ => 0) (fun _ => 0) (fun _ => 0) = none
    ∧ (VFM.init opsQ 0 8 (-1) (-1) (-1) 0 0 true 1 (fun _ _ => 0)
        (fun _ _ => 0) (fun _ => 0) (fun _ => 0)).isSome = true :=
  ⟨Or.inl (by decide), ⟨by decide, by decide⟩,
    (init_validation opsQ (-1) 8 (-1) (-1) (-1) 0 0 true 1 (fun _ _ => 0)
      (fun _ _ => 0) (fun _ => 0) (fun _ => 0)).1 (Or.inl (by decide)),
    (init_validation opsQ 0 8 (-1) (-1) (-1) 0 0 true 1 (fun _ _ => 0)
      (fun _ _ => 0) (fun _ => 0) (fun _ => 0)).2 (by decide) (by decide)⟩

end InitModel

section CollapseTheorems

/-! C4: collapse of the sampling to the posterior mean as `lv_floor` becomes
arbitrarily negative, for batches whose `is_test` flags are all one.  The
pipeline is instantiated over `ℝ` with the backend's true `exp` / `sqrt`.
-/

variable {n_features n_dim bs nf : ℕ}

lemma tendsto_collapse (mu lv e : ℝ) :
    Tendsto (fun t : ℝ => mu + Real.exp ((lv + t) / 2) * e) atBot (𝓝 mu) := by
  have h1 : Tendsto (fun t : ℝ => (lv + t) / 2) atBot atBot :=
    (tendsto_atBot_add_const_left _ lv tendsto_id).atBot_div_const two_pos
  have h2 : Tendsto (fun t : ℝ => Real.exp ((lv + t) / 2)) atBot (𝓝 0) :=
    Real.tendsto_exp_atBot.comp h1
  have h3 := h2.mul_const e
  rw [zero_mul] at h3
  simpa using tendsto_const_nhds.add h3

lemma biasSample_tendsto (m : VFM ℝ n_features n_dim)
    (is_test : Fin bs → ℝ) (nb : Fin bs → ℝ) (ht : ∀ b, is_test b = 1)
    (b : Fin bs) :
    Tendsto (fun t => biasSample ⟨Real.exp, Real.sqrt⟩ m is_test t nb b)
      atBot (𝓝 m.bias_mu) := by
  have h := tendsto_collapse m.bias_mu m.bias_lv (nb b)
  simp only [biasSample, gaussianSample, ht b, one_mul]
  exact h

lemma slopeCoef_tendsto (m : VFM ℝ n_features n_dim)
    (loc : Fin bs → Fin nf → Fin n_features) (is_test : Fin bs → ℝ)
    (ns : Fin bs → Fin nf → ℝ) (ht : ∀ b, is_test b = 1) (b : Fin bs)
    (i : Fin nf) :
    Tendsto (fun t => slopeCoef ⟨Real.exp, Real.sqrt⟩ m loc is_test t ns b i)
      atBot (𝓝 (m.slope_mu (loc b i) + m.prior_slope_mu)) := by
  have h := tendsto_collapse (m.slope_mu (loc b i) + m.prior_slope_mu)
    (m.slope_lv (loc b i) + m.prior_slope_lv) (ns b i)
  simp only [slopeCoef, gaussianSample, ht b, one_mul]
  exact h

lemma latentSample_tendsto (m : VFM ℝ n_features n_dim)
    (loc : Fin bs → Fin nf → Fin n_features) (is_test : Fin bs → ℝ)
    (nv : Fin bs → Fin nf → Fin n_dim → ℝ) (ht : ∀ b, is_test b = 1)
    (b : Fin bs) (i : Fin nf) (d : Fin n_dim) :
    Tendsto
      (fun t => latentSample ⟨Real.exp, Real.sqrt⟩ m loc is_test t nv b i d)
      atBot (𝓝 (m.latent_mu (loc b i) d + m.prior_latent_mu d)) := by
  have h := tendsto_collapse (m.latent_mu (loc b i) d + m.prior_latent_mu d)
    (m.latent_lv (loc b i) d + m.prior_latent_lv d) (nv b i d)
  simp only [latentSample, gaussianSample, ht b, one_mul]
  exact h

lemma forward_loss_tendsto (m : VFM ℝ n_features n_dim)
    (val : Fin bs → Fin nf → ℝ) (loc : Fin bs → Fin nf → Fin n_features)
    (y : Fin bs → ℝ) (is_test : Fin bs → ℝ) (nb : Fin bs → ℝ)
    (ns : Fin bs → Fin nf → ℝ) (nv : Fin bs → Fin nf → Fin n_dim → ℝ)
    (ht : ∀ b, is_test b = 1) :
    Tendsto
      (fun t =>
        (VFM.forward ⟨Real.exp, Real.sqrt⟩ m val loc y is_test t nb ns
          nv).loss)
      atBot
      (𝓝 ((∑ b, ((m.bias_mu
            + (∑ i, (m.slope_mu (loc b i) + m.prior_slope_mu) * val b i)
            + (if m.intx_term then
                ∑ i, ∑ j,
                  (∑ d, (m.latent_mu (loc b i) d + m.prior_latent_mu d)
                    * (m.latent_mu (loc b j) d + m.prior_latent_mu d))
                  * (val b i * val b j)
                  * maskEntryAt (maskCall m._mask bs nf).1 (b : ℕ) (i : ℕ)
                      (j : ℕ)
              else 0)) - y b) ^ 2) / (bs : ℝ)
        + regtOf ⟨Real.exp, Real.sqrt⟩ m * ((bs : ℝ) / m.total_nobs))) := by
  have hbias := biasSample_tendsto m is_test nb ht
  have hcoef := slopeCoef_tendsto m loc is_test ns ht
  have hvi := latentSample_tendsto m loc is_test nv ht
  have hslop : ∀ b : Fin bs,
      Tendsto
        (fun t =>
          slopeSum val (slopeCoef ⟨Real.exp, Real.sqrt⟩ m loc is_test t ns) b)
        atBot
        (𝓝 (∑ i, (m.slope_mu (loc b i) + m.prior_slope_mu) * val b i)) := by
    intro b
    simp only [slopeSum]
    exact tendsto_finset_sum _ fun i _ => (hcoef b i).mul_const _
  have hintx : ∀ b : Fin bs,
      Tendsto
        (fun t =>
          intxOf (latentSample ⟨Real.exp, Real.sqrt⟩ m loc is_test t nv) val
            (fun bb i j =>
              maskEntryAt (maskCall m._mask bs nf).1 (bb : ℕ) (i : ℕ) (j : ℕ))
            b)
        atBot
        (𝓝 (∑ i, ∑ j,
          (∑ d, (m.latent_mu (loc b i) d + m.prior_latent_mu d)
            * (m.latent_mu (loc b j) d + m.prior_latent_mu d))
          * (val b i * val b j)
          * maskEntryAt (maskCall m._mask bs nf).1 (b : ℕ) (i : ℕ)
              (j : ℕ))) := by
    intro b
    simp only [intxOf, gramOf]
    refine tendsto_finset_sum _ fun i _ => tendsto_finset_sum _ fun j _ => ?_
    exact ((tendsto_finset_sum _ fun d _ =>
      (hvi b i d).mul (hvi b j d)).mul_const _).mul_const _
  have hpred : ∀ b : Fin bs,
      Tendsto
        (fun t =>
          predOf ⟨Real.exp, Real.sqrt⟩ m val loc is_test t nb ns nv
            (fun bb i j =>
              maskEntryAt (maskCall m._mask bs nf).1 (bb : ℕ) (i : ℕ) (j : ℕ))
            b)
        atBot
        (𝓝 (m.bias_mu
          + (∑ i, (m.slope_mu (loc b i) + m.prior_slope_mu) * val b i)
          + (if m.intx_term then
              ∑ i, ∑ j,
                (∑ d, (m.latent_mu (loc b i) d + m.prior_latent_mu d)
                  * (m.latent_mu (loc b j) d + m.prior_latent_mu d))
                * (val b i * val b j)
                * maskEntryAt (maskCall m._mask bs nf).1 (b : ℕ) (i : ℕ)
                    (j : ℕ)
            else 0))) := by
    intro b
    simp only [predOf]
    by_cases hI : m.intx_term = true
    · simp only [hI, if_true]
      exact ((hbias b).add (hslop b)).add (hintx b)
    · simp only [hI, if_false]
      exact ((hbias b).add (hslop b)).add tendsto_const_nhds
  dsimp only [VFM.forward]
  simp only [meanSquaredError]
  have hsum :
      Tendsto
        (fun t => ∑ b,
          (predOf ⟨Real.exp, Real.sqrt⟩ m val loc is_test t nb ns nv
            (fun bb i j =>
              maskEntryAt (maskCall m._mask bs nf).1 (bb : ℕ) (i : ℕ) (j : ℕ))
            b - y b) ^ 2)
        atBot
        (𝓝 (∑ b, ((m.bias_mu
          + (∑ i, (m.slope_mu (loc b i) + m.prior_slope_mu) * val b i)
          + (if m.intx_term then
              ∑ i, ∑ j,
                (∑ d, (m.latent_mu (loc b i) d + m.prior_latent_mu d)
                  * (m.latent_mu (loc b j) d + m.prior_latent_mu d))
                * (val b i * val b j)
                * maskEntryAt (maskCall m._mask bs nf).1 (b : ℕ) (i : ℕ)
                    (j : ℕ)
            else 0)) - y b) ^ 2)) :=
    tendsto_finset_sum _ fun b _ => ((hpred b).sub_const _).pow 2
  exact (hsum.div_const _).add_const _

/-- C4 — when every row is flagged `is_test = 1`, each Gaussian sample
(bias, per-slot slope coefficient, per-slot latent component) converges to
its posterior mean as `lv_floor` goes to `-∞`, and consequently the losses
of two forward runs that differ only in their random noise converge to the
same value: their difference tends to `0`. -/
theorem is_test_collapse (m : VFM ℝ n_features n_dim)
    (val : Fin bs → Fin nf → ℝ) (loc : Fin bs → Fin nf → Fin n_features)
    (y : Fin bs → ℝ) (is_test : Fin bs → ℝ) (nb : Fin bs → ℝ)
    (ns : Fin bs → Fin nf → ℝ) (nv : Fin bs → Fin nf → Fin n_dim → ℝ)
    (nb2 : Fin bs → ℝ) (ns2 : Fin bs → Fin nf → ℝ)
    (nv2 : Fin bs → Fin nf → Fin n_dim → ℝ) (ht : ∀ b, is_test b = 1) :
    (∀ b, Tendsto
        (fun t => biasSample ⟨Real.exp, Real.sqrt⟩ m is_test t nb b) atBot
        (𝓝 m.bias_mu))
    ∧ (∀ b i, Tendsto
        (fun t => slopeCoef ⟨Real.exp, Real.sqrt⟩ m loc is_test t ns b i)
        atBot (𝓝 (m.slope_mu (loc b i) + m.prior_slope_mu)))
    ∧ (∀ b i d, Tendsto
        (fun t => latentSample ⟨Real.exp, Real.sqrt⟩ m loc is_test t nv b i d)
        atBot (𝓝 (m.latent_mu (loc b i) d + m.prior_latent_mu d)))
    ∧ Tendsto
        (fun t =>
          (VFM.forward ⟨Real.exp, Real.sqrt⟩ m val loc y is_test t nb ns
            nv).loss
          - (VFM.forward ⟨Real.exp, Real.sqrt⟩ m val loc y is_test t nb2 ns2
              nv2).loss)
        atBot (𝓝 0) := by
  refine ⟨biasSample_tendsto m is_test nb ht,
    slopeCoef_tendsto m loc is_test ns ht,
    latentSample_tendsto m loc is_test nv ht, ?_⟩
  have h1 := forward_loss_tendsto m val loc y is_test nb ns nv ht
  have h2 := forward_loss_tendsto m val loc y is_test nb2 ns2 nv2 ht
  simpa using h1.sub h2

/-- C4 witness: the collapse statement at a concrete all-test batch with
two genuinely different noise draws. -/
theorem is_test_collapse_witness :
    (∀ b : Fin 1, oneR b = 1)
    ∧ ((∀ b, Tendsto
          (fun t => biasSample ⟨Real.exp, Real.sqrt⟩ mR oneR t zR b) atBot
          (𝓝 mR.bias_mu))
      ∧ (∀ b i, Tendsto
          (fun t => slopeCoef ⟨Real.exp, Real.sqrt⟩ mR locR oneR t nsR b i)
          atBot (𝓝 (mR.slope_mu (locR b i) + mR.prior_slope_mu)))
      ∧ (∀ b i d, Tendsto
          (fun t =>
            latentSample ⟨Real.exp, Real.sqrt⟩ mR locR oneR t nvR b i d)
          atBot (𝓝 (mR.latent_mu (locR b i) d + mR.prior_latent_mu d)))
      ∧ Tendsto
          (fun t =>
            (VFM.forward ⟨Real.exp, Real.sqrt⟩ mR valR locR zR oneR t zR nsR
              nvR).loss
            - (VFM.forward ⟨Real.exp, Real.sqrt⟩ mR valR locR zR oneR t oneR
                nsR2 nvR2).loss)
          atBot (𝓝 0)) :=
  ⟨fun _ => rfl,
    is_test_collapse mR valR locR zR oneR zR nsR nvR oneR nsR2 nvR2
      fun _ => rfl⟩

end CollapseTheorems

end VFMSpec
